import Mathlib

/-!
Verification development for the FitJournal repository (a FastAPI + SQLAlchemy
fitness-tracking backend, `src/main.py`, `src/models.py`, `src/schemas.py`,
plus a commented-out legacy command-line prototype at the bottom of
`src/main.py`).

The first part embeds the active database-backed HTTP layer: the relational
rows of `models.py`, an explicit database state, and the route handlers of
`main.py` as pure state-passing functions.  Timestamps (`user_created_at`,
`exercise_updated_at`, ...) are server-generated wall-clock data irrelevant to
every property below and are omitted from the rows.  `DECIMAL(5,2)` columns
are embedded as exact rationals.

The second part embeds the legacy in-memory prototype (the commented block of
`src/main.py`): the `Exercise` class, the muscle-group dictionary, the
deque-based weekly schedule, `suggest_workout_of_the_day` and
`mark_workout_as_complete`.  Python object references into the dictionary are
embedded as positional indices, and `random.sample` is embedded as an explicit
sampling parameter constrained to behave as sampling without replacement.
-/

/-! ## Relational model (src/models.py) -/

/-- MuscleGroupEnum from models.py. -/
inductive MuscleGroupEnum where
  | Biceps | Back | Triceps | Shoulders | Legs | Glutes | Chest | Calves | Abs
deriving DecidableEq, Repr

/-- Row of the `users` table (model `User`).  Profile columns that default to
NULL and the timestamp columns play no role in any property below; the
columns embedded are the ones the route layer reads or writes. -/
structure UserRow where
  user_id : Nat
  user_email : String
  user_password : String
  user_first_name : Option String := none
  user_last_name : Option String := none
  user_is_active : Bool := true
deriving DecidableEq, Repr

/-- Row of the `default_exercises` table (model `DefaultExercise`). -/
structure DefaultExerciseRow where
  default_exercise_id : Nat
  exercise_name : String
  exercise_muscle_group : MuscleGroupEnum
  exercise_link : Option String := none
deriving DecidableEq, Repr

/-- Row of the `exercises` table (model `Exercise`).  Column defaults follow
models.py: `exercise_is_in_routine` defaults to True,
`exercise_times_performed` defaults to 0. -/
structure ExerciseRow where
  exercise_id : Nat
  exercise_name : String
  exercise_muscle_group : MuscleGroupEnum
  exercise_user_current_weight : Option Rat := none
  user_id : Nat
  exercise_is_in_routine : Bool := true
  exercise_times_performed : Nat := 0
  exercise_link : Option String := none
  comments : Option String := none
deriving DecidableEq, Repr

/-- Row of the `routine_days` table (model `Routine`). -/
structure RoutineRow where
  routine_id : Nat
  user_id : Nat
  days_per_week : Nat
deriving DecidableEq, Repr

/-- Row of the `routine_muscles_per_day` table (model `RoutineMusclePerDay`). -/
structure RoutineMusclePerDayRow where
  routine_day_id : Nat
  user_id : Nat
  day_number : Nat
  muscle_group : MuscleGroupEnum
deriving DecidableEq, Repr

/-- The database state: one list per table, plus the autoincrement counters
for the two tables the route layer inserts into. -/
structure DB where
  users : List UserRow
  default_exercises : List DefaultExerciseRow
  exercises : List ExerciseRow
  routine_days : List RoutineRow
  routine_muscles_per_day : List RoutineMusclePerDayRow
  next_user_id : Nat
  next_exercise_id : Nat
deriving DecidableEq, Repr

/-- A freshly created database (`models.Base.metadata.create_all`): every
table empty. -/
def emptyDB : DB :=
  { users := [], default_exercises := [], exercises := [], routine_days := []
    routine_muscles_per_day := [], next_user_id := 1, next_exercise_id := 1 }

/-! ## Password hashing (src/main.py, lines 38-47)

`hash_password` and `verify_password` delegate to passlib bcrypt.  The
library is embedded by its contract: hashing is an injective encoding and
verification succeeds exactly on a hash of the given plaintext. -/

/-- hash_password from main.py, bcrypt modelled by its contract (an injective
encoding of the plaintext; salting is irrelevant to every property below). -/
def hash_password (password : String) : String := "$2b$" ++ password

/-- verify_password from main.py: true exactly when the hash matches the
plaintext, the bcrypt verification contract. -/
def verify_password (plain_password hashed_password : String) : Bool :=
  hash_password plain_password == hashed_password

/-! ## Pydantic schemas (src/schemas.py) -/

/-- ExerciseCreate from schemas.py: the five request fields of an exercise
create/update payload.  (Pydantic declares the muscle group as `str`; the
database column is `Enum(MuscleGroupEnum)`, so the enum is used here.) -/
structure ExerciseCreate where
  exercise_name : String
  exercise_muscle_group : MuscleGroupEnum
  exercise_user_current_weight : Option Rat := none
  exercise_link : Option String := none
  comments : Option String := none
deriving DecidableEq, Repr

/-! ## Route handlers (src/main.py) -/

/-- Clones of the default-exercise catalog for a new user (`register`, the
loop at lines 81-89 of main.py): each clone copies name, muscle group and
link, receives the new autoincrement id, and takes the column defaults for
every other field. -/
def cloneDefaults (next_id user_id : Nat) : List DefaultExerciseRow → List ExerciseRow
  | [] => []
  | d :: rest =>
      { exercise_id := next_id
        exercise_name := d.exercise_name
        exercise_muscle_group := d.exercise_muscle_group
        exercise_link := d.exercise_link
        user_id := user_id } :: cloneDefaults (next_id + 1) user_id rest

/-- register from main.py: reject with 400 when a user with the email already
exists, otherwise insert the new user with the hashed password and copy every
default exercise into the exercises table for the new user id.  Returns the
HTTP status code and the resulting database. -/
def register (db : DB) (user_email user_password : String) : Nat × DB :=
  match db.users.find? (fun u => u.user_email == user_email) with
  | some _ => (400, db)
  | none =>
      let new_user : UserRow :=
        { user_id := db.next_user_id
          user_email := user_email
          user_password := hash_password user_password }
      (201, { db with
                users := db.users ++ [new_user]
                exercises := db.exercises ++
                  cloneDefaults db.next_exercise_id db.next_user_id db.default_exercises
                next_user_id := db.next_user_id + 1
                next_exercise_id := db.next_exercise_id + db.default_exercises.length })

/-- Result of the login route: an HTTPException status code, or the payload
of the success response. -/
inductive LoginResult where
  | http_error (code : Nat)
  | ok (user_id : Nat) (user_email : String)
deriving DecidableEq, Repr

/-- login from main.py: find the user by email; 401 when absent or when the
password does not verify; 403 when the account is inactive; otherwise return
the user id and email. -/
def login (db : DB) (user_email user_password : String) : LoginResult :=
  match db.users.find? (fun u => u.user_email == user_email) with
  | none => .http_error 401
  | some db_user =>
      if !verify_password user_password db_user.user_password then .http_error 401
      else if !db_user.user_is_active then .http_error 403
      else .ok db_user.user_id db_user.user_email

/-- get_exercises from main.py: all exercises of the given user. -/
def get_exercises (db : DB) (user_id : Nat) : List ExerciseRow :=
  db.exercises.filter (fun e => e.user_id == user_id)

/-- create_exercise from main.py: insert a new exercise from the payload for
the given user; the unsent columns take their defaults. -/
def create_exercise (db : DB) (exercise : ExerciseCreate) (user_id : Nat) : Nat × DB :=
  (201, { db with
            exercises := db.exercises ++
              [{ exercise_id := db.next_exercise_id
                 exercise_name := exercise.exercise_name
                 exercise_muscle_group := exercise.exercise_muscle_group
                 exercise_user_current_weight := exercise.exercise_user_current_weight
                 exercise_link := exercise.exercise_link
                 comments := exercise.comments
                 user_id := user_id }]
            next_exercise_id := db.next_exercise_id + 1 })

/-- The setattr loop of update_exercise: every key of `exercise.dict()` (the
five ExerciseCreate fields) is written onto the targeted row. -/
def applyUpdate (exercise : ExerciseCreate) (e : ExerciseRow) : ExerciseRow :=
  { e with
      exercise_name := exercise.exercise_name
      exercise_muscle_group := exercise.exercise_muscle_group
      exercise_user_current_weight := exercise.exercise_user_current_weight
      exercise_link := exercise.exercise_link
      comments := exercise.comments }

/-- Update of the first row matching `.filter(exercise_id == , user_id ==
).first()`; none when no row matches. -/
def updateFirstExercise (exercise : ExerciseCreate) (exercise_id user_id : Nat) :
    List ExerciseRow → Option (List ExerciseRow)
  | [] => none
  | e :: rest =>
      if e.exercise_id == exercise_id && e.user_id == user_id then
        some (applyUpdate exercise e :: rest)
      else
        (updateFirstExercise exercise exercise_id user_id rest).map (e :: ·)

/-- update_exercise from main.py: 404 when no exercise of this user has the
id, otherwise overwrite the five payload fields of the first matching row. -/
def update_exercise (db : DB) (exercise_id : Nat) (exercise : ExerciseCreate)
    (user_id : Nat) : Nat × DB :=
  match updateFirstExercise exercise exercise_id user_id db.exercises with
  | none => (404, db)
  | some rows => (200, { db with exercises := rows })

/-- Removal of the first row matching `.filter(exercise_id == , user_id ==
).first()`; none when no row matches. -/
def deleteFirstExercise (exercise_id user_id : Nat) :
    List ExerciseRow → Option (List ExerciseRow)
  | [] => none
  | e :: rest =>
      if e.exercise_id == exercise_id && e.user_id == user_id then some rest
      else (deleteFirstExercise exercise_id user_id rest).map (e :: ·)

/-- delete_exercise from main.py: 404 when no exercise of this user has the
id, otherwise delete the first matching row (204). -/
def delete_exercise (db : DB) (exercise_id user_id : Nat) : Nat × DB :=
  match deleteFirstExercise exercise_id user_id db.exercises with
  | none => (404, db)
  | some rows => (204, { db with exercises := rows })

/-- get_default_exercises from main.py. -/
def get_default_exercises (db : DB) : List DefaultExerciseRow :=
  db.default_exercises

/-- get_routines from main.py (the placeholder routine route): all routine
rows of the given user; it writes nothing. -/
def get_routines (db : DB) (user_id : Nat) : List RoutineRow :=
  db.routine_days.filter (fun r => r.user_id == user_id)

/-! ## The HTTP surface (src/main.py, route decorators) -/

/-- One registered route: HTTP method and path. -/
structure Route where
  method : String
  path : String
deriving DecidableEq, Repr

/-- Every route registered on the FastAPI app in main.py, in source order. -/
def app_routes : List Route :=
  [ ⟨"GET", "/"⟩
  , ⟨"POST", "/register"⟩
  , ⟨"POST", "/login"⟩
  , ⟨"GET", "/exercises"⟩
  , ⟨"POST", "/exercises"⟩
  , ⟨"PUT", "/exercises/\x7bexercise_id\x7d"⟩
  , ⟨"DELETE", "/exercises/\x7bexercise_id\x7d"⟩
  , ⟨"GET", "/default-exercises"⟩
  , ⟨"GET", "/routines"⟩ ]

/-- The operation categories named by the specification for the HTTP
surface. -/
inductive OperationKind where
  | registration
  | user_login
  | profile_crud
  | exercise_crud
  | routine_crud
  | workout_completion
  | next_workout_generation
deriving DecidableEq, Repr

/-- The operation category each route handler implements, read off the
handler bodies in main.py: register, login, the four exercise routes, and
the routine read; the index route and the default-exercise catalog read
belong to none of the named categories. -/
def route_operation (r : Route) : Option OperationKind :=
  if r = ⟨"POST", "/register"⟩ then some .registration
  else if r = ⟨"POST", "/login"⟩ then some .user_login
  else if r.path = "/exercises" || r.path = "/exercises/\x7bexercise_id\x7d" then
    some .exercise_crud
  else if r = ⟨"GET", "/routines"⟩ then some .routine_crud
  else none

/-- Whether the HTTP surface exposes an operation of the given category. -/
def exposes (k : OperationKind) : Bool :=
  app_routes.any (fun r => route_operation r == some k)

/-! ## Reachable database states

The mutating route handlers are register, create_exercise, update_exercise
and delete_exercise; login and the GET routes only read.  A state is
reachable when it arises from the fresh database by route calls. -/

/-- Reachability of a database state through the HTTP surface of main.py. -/
inductive Reachable : DB → Prop where
  | init : Reachable emptyDB
  | step_register (db : DB) (e p : String) :
      Reachable db → Reachable (register db e p).2
  | step_create (db : DB) (x : ExerciseCreate) (uid : Nat) :
      Reachable db → Reachable (create_exercise db x uid).2
  | step_update (db : DB) (eid : Nat) (x : ExerciseCreate) (uid : Nat) :
      Reachable db → Reachable (update_exercise db eid x uid).2
  | step_delete (db : DB) (eid uid : Nat) :
      Reachable db → Reachable (delete_exercise db eid uid).2

/-- The routine bounds of the specification: days_per_week within [1, 7]
(the check constraint on `routine_days`), and every day assignment within
[1, days_per_week] of a routine of the same user. -/
def RoutineBoundsOK (db : DB) : Prop :=
  (∀ r ∈ db.routine_days, 1 ≤ r.days_per_week ∧ r.days_per_week ≤ 7) ∧
  (∀ m ∈ db.routine_muscles_per_day, ∀ r ∈ db.routine_days,
    r.user_id = m.user_id → 1 ≤ m.day_number ∧ m.day_number ≤ r.days_per_week)

/-! ## Legacy prototype (the commented block of src/main.py)

State of the command-line prototype: the selected unit of measure, the
deque-based weekly schedule (one list of muscle-group names per training
day, front = today), the muscle-group dictionary, and the selection of
today.  A Python reference to an exercise object inside a dictionary bucket
is embedded as the pair of its position in the bucket and its value. -/

/-- The legacy Exercise class: name, muscle group, weight, times-performed
count.  (The one-decimal rounding of the weight is display arithmetic on
floats and is irrelevant to every property below; the weight is carried
exactly.) -/
structure LegacyExercise where
  name : String
  muscle_group : String
  weight : Rat
  count : Nat
deriving DecidableEq, Repr

/-- Lookup in a Python dict embedded as an association list (first entry
with the key, as `d[k]` and `k in d` on a dict with unique keys). -/
def dict_find {α : Type} (g : String) : List (String × α) → Option α
  | [] => none
  | (k, v) :: rest => if k = g then some v else dict_find g rest

/-- State of the legacy prototype. -/
structure LegacyState where
  unit_of_measure_selected : Option String
  user_schedule : List (List String)
  exercises_dictionary : List (String × List LegacyExercise)
  today_selected_exercises : List (String × List (Nat × LegacyExercise))
deriving Repr

/-- Comparison key of `sorted(exercises, key=lambda e: e.get_count())` on
referenced exercises. -/
def count_le (a b : Nat × LegacyExercise) : Bool :=
  decide (a.2.count ≤ b.2.count)

/-- The selection of suggest_workout_of_the_day for one muscle group
(lines 1052-1078 of main.py): sort the bucket by ascending count, skip an
empty bucket, collect the exercises tied at the lowest count; when at least
3 are tied take a random sample of 3 of them (the `sample` parameter),
otherwise take all of them and fill from the next positions of the sorted
order until 3 are selected or the bucket is exhausted. -/
def select_for_group (sample : List (Nat × LegacyExercise) → List (Nat × LegacyExercise))
    (exs : List LegacyExercise) : Option (List (Nat × LegacyExercise)) :=
  let sorted_exercises := exs.enum.mergeSort count_le
  match sorted_exercises with
  | [] => none
  | e0 :: _ =>
      let min_count := e0.2.count
      let lowest_exercises := sorted_exercises.filter (fun e => e.2.count == min_count)
      if 3 ≤ lowest_exercises.length then some (sample lowest_exercises)
      else some (lowest_exercises ++
        (sorted_exercises.drop lowest_exercises.length).take (3 - lowest_exercises.length))

/-- suggest_workout_of_the_day from main.py: clear the selection of today;
return unchanged (apart from the cleared selection) unless a unit of measure
and a schedule are configured; otherwise take the muscle groups of the front
day of the schedule and store the per-group selection for each scheduled
group present in the dictionary with a non-empty bucket. -/
def suggest_workout_of_the_day
    (sample : List (Nat × LegacyExercise) → List (Nat × LegacyExercise))
    (st : LegacyState) : LegacyState :=
  if st.unit_of_measure_selected.isNone then
    { st with today_selected_exercises := [] }
  else if st.user_schedule.isEmpty then
    { st with today_selected_exercises := [] }
  else
    let muscle_groups := st.user_schedule.headD []
    { st with
        today_selected_exercises :=
          muscle_groups.filterMap (fun group =>
            match dict_find group st.exercises_dictionary with
            | none => none
            | some exs => (select_for_group sample exs).map (fun sel => (group, sel))) }

/-- The behaviour of `random.sample(lowest, 3)`: whenever the pool has at
least 3 elements, the result has exactly 3 entries, each drawn from the
pool. -/
def ValidSample (sample : List (Nat × LegacyExercise) → List (Nat × LegacyExercise)) : Prop :=
  ∀ xs, 3 ≤ xs.length →
    (sample xs).length = 3 ∧ (∀ p ∈ sample xs, p ∈ xs)

/-- Increment of the times-performed count of the exercise class
(`increment_count`). -/
def increment_count (e : LegacyExercise) : LegacyExercise :=
  { e with count := e.count + 1 }

/-- Mutation of the referenced object inside a dictionary bucket: increment
the count at the given position. -/
def bumpAt : List LegacyExercise → Nat → List LegacyExercise
  | [], _ => []
  | e :: rest, 0 => increment_count e :: rest
  | e :: rest, i + 1 => e :: bumpAt rest i

/-- The inner loop of mark_workout_as_complete (`for exercise in
today_selected_exercises[group]: exercise.increment_count()`), acting on the
bucket through the stored references. -/
def increment_selected (exs : List LegacyExercise)
    (sel : List (Nat × LegacyExercise)) : List LegacyExercise :=
  sel.foldl (fun acc p => bumpAt acc p.1) exs

/-- One iteration of the outer loop of mark_workout_as_complete: when the
group has a selection of today, increment the selected exercises inside the
bucket of that group. -/
def increment_group (selected : List (String × List (Nat × LegacyExercise)))
    (dict : List (String × List LegacyExercise)) (group : String) :
    List (String × List LegacyExercise) :=
  match dict_find group selected with
  | none => dict
  | some sel =>
      dict.map (fun entry =>
        if entry.1 = group then (entry.1, increment_selected entry.2 sel) else entry)

/-- mark_workout_as_complete from main.py (the branch confirming
completion): for each muscle group of the front day of the schedule with a
selection of today, increment the count of every selected exercise, then
rotate the schedule deque left by one (`user_schedule.rotate(-1)`). -/
def mark_workout_as_complete (st : LegacyState) : LegacyState :=
  let today_muscle_groups := st.user_schedule.headD []
  { st with
      exercises_dictionary :=
        today_muscle_groups.foldl (increment_group st.today_selected_exercises)
          st.exercises_dictionary
      user_schedule := st.user_schedule.drop 1 ++ st.user_schedule.take 1 }

/-! ## Concrete instances used in closed checks -/

/-- A catalog with one default exercise, used for concrete evaluations. -/
def dbSeed : DB :=
  { emptyDB with default_exercises := [⟨1, "Back squat", .Legs, none⟩] }

/-- A database with one registered user owning one exercise, used for
concrete evaluations. -/
def dbWithExercise : DB :=
  { emptyDB with
      users := [{ user_id := 1, user_email := "a@b.c",
                  user_password := hash_password "pw" }]
      exercises := [{ exercise_id := 5, exercise_name := "Row",
                      exercise_muscle_group := .Back, user_id := 1 }]
      next_user_id := 2
      next_exercise_id := 6 }

/-- A concrete update payload, used for concrete evaluations. -/
def samplePayload : ExerciseCreate :=
  { exercise_name := "Row rear deltoid", exercise_muscle_group := .Back }

/-- A sampling function realising one possible run of random.sample: the
first three elements of the pool. -/
def takeSample (xs : List (Nat × LegacyExercise)) : List (Nat × LegacyExercise) :=
  xs.take 3

/-- A concrete legacy prototype state used for concrete evaluations. -/
def legacySt : LegacyState :=
  { unit_of_measure_selected := some "pounds"
    user_schedule := [["chest"], ["back"]]
    exercises_dictionary :=
      [("chest",
        [⟨"Bench press", "chest", 90, 3⟩, ⟨"Fly machine", "chest", 135, 1⟩,
         ⟨"Chest press machine", "chest", 110, 1⟩, ⟨"Cable crossover", "chest", 60, 2⟩]),
       ("back", [⟨"Row", "back", 115, 0⟩])]
    today_selected_exercises :=
      [("chest",
        [(1, ⟨"Fly machine", "chest", 135, 1⟩),
         (2, ⟨"Chest press machine", "chest", 110, 1⟩)])] }

/-! ## Helper lemmas -/

theorem cloneDefaults_user_id (ds : List DefaultExerciseRow) :
    ∀ n uid, ∀ x ∈ cloneDefaults n uid ds, x.user_id = uid := by
  induction ds with
  | nil => intro n uid x hx; simp [cloneDefaults] at hx
  | cons d rest ih =>
      intro n uid x hx
      simp only [cloneDefaults, List.mem_cons] at hx
      rcases hx with h | h
      · subst h; rfl
      · exact ih (n + 1) uid x h

theorem cloneDefaults_fields (ds : List DefaultExerciseRow) :
    ∀ n uid,
      (cloneDefaults n uid ds).map
        (fun x => (x.exercise_name, x.exercise_muscle_group, x.exercise_link)) =
      ds.map (fun d => (d.exercise_name, d.exercise_muscle_group, d.exercise_link)) := by
  induction ds with
  | nil => intro n uid; rfl
  | cons d rest ih => intro n uid; simp [cloneDefaults, ih (n + 1) uid]

theorem cloneDefaults_length (ds : List DefaultExerciseRow) :
    ∀ n uid, (cloneDefaults n uid ds).length = ds.length := by
  induction ds with
  | nil => intro n uid; rfl
  | cons d rest ih => intro n uid; simp [cloneDefaults, ih]

/-! ## C3 -/

/-- C3: a successful registration creates exactly one new user and copies
every default exercise (name, muscle group, link) into the per-user exercise
set of the new user, whose exercise count therefore equals the size of the
default catalog. -/
theorem register_clones_defaults (db : DB) (e p : String)
    (hwf : ∀ x ∈ db.exercises, x.user_id ≠ db.next_user_id)
    (hfree : ∀ u ∈ db.users, u.user_email ≠ e) :
    (register db e p).1 = 201 ∧
    (register db e p).2.users = db.users ++
      [{ user_id := db.next_user_id, user_email := e,
         user_password := hash_password p }] ∧
    ((register db e p).2.exercises.filter (fun x => x.user_id == db.next_user_id)) =
      cloneDefaults db.next_exercise_id db.next_user_id db.default_exercises ∧
    ((register db e p).2.exercises.filter (fun x => x.user_id == db.next_user_id)).map
        (fun x => (x.exercise_name, x.exercise_muscle_group, x.exercise_link)) =
      db.default_exercises.map
        (fun d => (d.exercise_name, d.exercise_muscle_group, d.exercise_link)) ∧
    ((register db e p).2.exercises.filter (fun x => x.user_id == db.next_user_id)).length =
      db.default_exercises.length := by
  have hfind : db.users.find? (fun u => u.user_email == e) = none :=
    List.find?_eq_none.mpr (fun u hu => by simpa using hfree u hu)
  have hold : db.exercises.filter (fun x => x.user_id == db.next_user_id) = [] :=
    List.filter_eq_nil_iff.mpr (fun x hx => by simpa using hwf x hx)
  have hfiltc :
      (cloneDefaults db.next_exercise_id db.next_user_id db.default_exercises).filter
        (fun x => x.user_id == db.next_user_id) =
      cloneDefaults db.next_exercise_id db.next_user_id db.default_exercises :=
    List.filter_eq_self.mpr (fun x hx => by
      simp [cloneDefaults_user_id db.default_exercises _ _ x hx])
  have hreg : register db e p =
      (201,
        { db with
            users := db.users ++ [⟨db.next_user_id, e, hash_password p, none, none, true⟩],
            exercises := db.exercises ++
              cloneDefaults db.next_exercise_id db.next_user_id db.default_exercises,
            next_user_id := db.next_user_id + 1,
            next_exercise_id := db.next_exercise_id + db.default_exercises.length }) := by
    unfold register; rw [hfind]
  refine ⟨?_, ?_, ?_, ?_, ?_⟩ <;> rw [hreg]
  · show (db.exercises ++ _).filter _ = _
    rw [List.filter_append, hold, hfiltc]; rfl
  · show ((db.exercises ++ _).filter _).map _ = _
    rw [List.filter_append, hold, hfiltc]
    simpa using cloneDefaults_fields db.default_exercises db.next_exercise_id db.next_user_id
  · show ((db.exercises ++ _).filter _).length = _
    rw [List.filter_append, hold, hfiltc]
    simpa using cloneDefaults_length db.default_exercises db.next_exercise_id db.next_user_id

/-- Closed check for the registration-cloning theorem on a one-exercise
catalog. -/
theorem register_clones_defaults_witness :
    (∀ x ∈ dbSeed.exercises, x.user_id ≠ dbSeed.next_user_id) ∧
    (∀ u ∈ dbSeed.users, u.user_email ≠ "a@b.c") ∧
    ((register dbSeed "a@b.c" "pw").1 = 201 ∧
     (register dbSeed "a@b.c" "pw").2.users = dbSeed.users ++
       [{ user_id := dbSeed.next_user_id, user_email := "a@b.c",
          user_password := hash_password "pw" }] ∧
     ((register dbSeed "a@b.c" "pw").2.exercises.filter
         (fun x => x.user_id == dbSeed.next_user_id)) =
       cloneDefaults dbSeed.next_exercise_id dbSeed.next_user_id dbSeed.default_exercises ∧
     ((register dbSeed "a@b.c" "pw").2.exercises.filter
         (fun x => x.user_id == dbSeed.next_user_id)).map
         (fun x => (x.exercise_name, x.exercise_muscle_group, x.exercise_link)) =
       dbSeed.default_exercises.map
         (fun d => (d.exercise_name, d.exercise_muscle_group, d.exercise_link)) ∧
     ((register dbSeed "a@b.c" "pw").2.exercises.filter
         (fun x => x.user_id == dbSeed.next_user_id)).length =
       dbSeed.default_exercises.length) :=
  ⟨by simp [dbSeed, emptyDB], by simp [dbSeed, emptyDB],
    register_clones_defaults dbSeed "a@b.c" "pw"
      (by simp [dbSeed, emptyDB]) (by simp [dbSeed, emptyDB])⟩

/-! ## C4 -/

/-- C4: registration with an already-registered email fails with 400 and
leaves the database unchanged; with a fresh email it succeeds with 201 and a
user with that email then exists. -/
theorem register_conflict_spec (db : DB) (e p : String) :
    ((register db e p).1 = 400 ↔ ∃ u ∈ db.users, u.user_email = e) ∧
    ((register db e p).1 = 400 → (register db e p).2 = db) ∧
    ((¬ ∃ u ∈ db.users, u.user_email = e) →
      (register db e p).1 = 201 ∧
      ∃ u ∈ (register db e p).2.users, u.user_email = e) := by
  cases hfind : db.users.find? (fun u => u.user_email == e) with
  | none =>
      have hno : ∀ u ∈ db.users, ¬ u.user_email = e := fun u hu => by
        simpa using List.find?_eq_none.mp hfind u hu
      refine ⟨?_, ?_, ?_⟩ <;> unfold register <;> rw [hfind]
      · constructor
        · intro h; simp at h
        · rintro ⟨u, hu, he⟩; exact absurd he (hno u hu)
      · intro h; simp at h
      · intro _
        exact ⟨rfl, ⟨{ user_id := db.next_user_id, user_email := e,
                       user_password := hash_password p }, by simp, rfl⟩⟩
  | some u =>
      have hu : u ∈ db.users := List.mem_of_find?_eq_some hfind
      have he : u.user_email = e := by simpa using List.find?_some hfind
      refine ⟨?_, ?_, ?_⟩ <;> unfold register <;> rw [hfind]
      · exact ⟨fun _ => ⟨u, hu, he⟩, fun _ => rfl⟩
      · intro _; rfl
      · intro hc; exact absurd ⟨u, hu, he⟩ hc

/-! ## C5 -/

theorem register_routine_frame (db : DB) (e p : String) :
    (register db e p).2.routine_days = db.routine_days ∧
    (register db e p).2.routine_muscles_per_day = db.routine_muscles_per_day := by
  unfold register
  cases db.users.find? (fun u => u.user_email == e) <;> exact ⟨rfl, rfl⟩

theorem create_routine_frame (db : DB) (x : ExerciseCreate) (uid : Nat) :
    (create_exercise db x uid).2.routine_days = db.routine_days ∧
    (create_exercise db x uid).2.routine_muscles_per_day = db.routine_muscles_per_day :=
  ⟨rfl, rfl⟩

theorem update_routine_frame (db : DB) (eid : Nat) (x : ExerciseCreate) (uid : Nat) :
    (update_exercise db eid x uid).2.routine_days = db.routine_days ∧
    (update_exercise db eid x uid).2.routine_muscles_per_day = db.routine_muscles_per_day := by
  unfold update_exercise
  cases updateFirstExercise x eid uid db.exercises <;> exact ⟨rfl, rfl⟩

theorem delete_routine_frame (db : DB) (eid uid : Nat) :
    (delete_exercise db eid uid).2.routine_days = db.routine_days ∧
    (delete_exercise db eid uid).2.routine_muscles_per_day = db.routine_muscles_per_day := by
  unfold delete_exercise
  cases deleteFirstExercise eid uid db.exercises <;> exact ⟨rfl, rfl⟩

/-- C5: in every reachable database state the routine bounds hold: every
days_per_week lies in [1, 7] and every day assignment lies in
[1, days_per_week] of a routine of the same user; every operation of the
surface preserves this (none of them writes the routine tables). -/
theorem routine_bounds_invariant (db : DB) (h : Reachable db) : RoutineBoundsOK db := by
  induction h with
  | init =>
      exact ⟨fun r hr => by simp [emptyDB] at hr, fun m hm => by simp [emptyDB] at hm⟩
  | step_register db e p _ ih =>
      obtain ⟨h1, h2⟩ := register_routine_frame db e p
      unfold RoutineBoundsOK at *
      rw [h1, h2]; exact ih
  | step_create db x uid _ ih =>
      obtain ⟨h1, h2⟩ := create_routine_frame db x uid
      unfold RoutineBoundsOK at *
      rw [h1, h2]; exact ih
  | step_update db eid x uid _ ih =>
      obtain ⟨h1, h2⟩ := update_routine_frame db eid x uid
      unfold RoutineBoundsOK at *
      rw [h1, h2]; exact ih
  | step_delete db eid uid _ ih =>
      obtain ⟨h1, h2⟩ := delete_routine_frame db eid uid
      unfold RoutineBoundsOK at *
      rw [h1, h2]; exact ih

/-- Closed check for the routine-bounds invariant at the initial state. -/
theorem routine_bounds_invariant_witness :
    Reachable emptyDB ∧ RoutineBoundsOK emptyDB :=
  ⟨Reachable.init, routine_bounds_invariant emptyDB Reachable.init⟩

/-! ## C6 -/

/-- C6 counterexample: the HTTP surface of main.py exposes no operation for
profile CRUD, workout completion, or next-workout generation, refuting the
claim that it exposes an operation for each named category. -/
theorem http_surface_gaps :
    exposes OperationKind.profile_crud = false ∧
    exposes OperationKind.workout_completion = false ∧
    exposes OperationKind.next_workout_generation = false := by decide

/-- C6 amended: the HTTP surface exposes registration, login, exercise CRUD
and a routine read, and exposes none of profile CRUD, workout completion, or
next-workout generation (those exist only in the commented-out prototype). -/
theorem http_surface_amended :
    exposes OperationKind.registration = true ∧
    exposes OperationKind.user_login = true ∧
    exposes OperationKind.exercise_crud = true ∧
    exposes OperationKind.routine_crud = true ∧
    exposes OperationKind.profile_crud = false ∧
    exposes OperationKind.workout_completion = false ∧
    exposes OperationKind.next_workout_generation = false := by decide

/-! ## C7 -/

/-- C7: login returns 401 exactly when no user carries the email or the
password fails verification against the stored hash of the user found;
403 exactly when the password verifies but the account is inactive; and the
success payload is exactly the id and email of the user found. -/
theorem login_status_spec (db : DB) (e p : String) :
    ((db.users.find? (fun u => u.user_email == e) = none) ↔
      ∀ u ∈ db.users, u.user_email ≠ e) ∧
    (login db e p = .http_error 401 ↔
      (db.users.find? (fun u => u.user_email == e) = none ∨
       ∃ u, db.users.find? (fun v => v.user_email == e) = some u ∧
         verify_password p u.user_password = false)) ∧
    (login db e p = .http_error 403 ↔
      ∃ u, db.users.find? (fun v => v.user_email == e) = some u ∧
        verify_password p u.user_password = true ∧ u.user_is_active = false) ∧
    (∀ uid em, login db e p = .ok uid em ↔
      ∃ u, db.users.find? (fun v => v.user_email == e) = some u ∧
        verify_password p u.user_password = true ∧ u.user_is_active = true ∧
        u.user_id = uid ∧ u.user_email = em) := by
  have hnone : (db.users.find? (fun u => u.user_email == e) = none) ↔
      ∀ u ∈ db.users, u.user_email ≠ e := by
    rw [List.find?_eq_none]
    exact ⟨fun h u hu => by simpa using h u hu, fun h u hu => by simpa using h u hu⟩
  refine ⟨hnone, ?_, ?_, ?_⟩
  all_goals
    cases hfind : db.users.find? (fun u => u.user_email == e) with
    | none => simp [login, hfind]
    | some u =>
        cases hv : verify_password p u.user_password <;>
          cases ha : u.user_is_active <;>
            simp [login, hfind, hv, ha]

/-! ## C10 -/

/-- C10: password verification round-trips with hashing, and a user who
registers with a fresh email and password can immediately log in with them. -/
theorem password_roundtrip (db : DB) (e p : String)
    (hfree : ∀ u ∈ db.users, u.user_email ≠ e) :
    (∀ q : String, verify_password q (hash_password q) = true) ∧
    login (register db e p).2 e p = .ok db.next_user_id e := by
  have hv : ∀ q : String, verify_password q (hash_password q) = true := fun q => by
    simp [verify_password]
  refine ⟨hv, ?_⟩
  have hfind : db.users.find? (fun u => u.user_email == e) = none :=
    List.find?_eq_none.mpr (fun u hu => by simpa using hfree u hu)
  have hreg : (register db e p).2.users = db.users ++
      [{ user_id := db.next_user_id, user_email := e,
         user_password := hash_password p }] := by
    unfold register; rw [hfind]
  unfold login
  rw [hreg, List.find?_append, hfind]
  simp [verify_password]

/-- Closed check for the register-then-login round trip. -/
theorem password_roundtrip_witness :
    (∀ u ∈ dbSeed.users, u.user_email ≠ "a@b.c") ∧
    ((∀ q : String, verify_password q (hash_password q) = true) ∧
      login (register dbSeed "a@b.c" "pw").2 "a@b.c" "pw" =
        .ok dbSeed.next_user_id "a@b.c") :=
  ⟨by simp [dbSeed, emptyDB],
    password_roundtrip dbSeed "a@b.c" "pw" (by simp [dbSeed, emptyDB])⟩

/-! ## C8 -/

theorem updateFirstExercise_eq_none (x : ExerciseCreate) (eid uid : Nat) :
    ∀ l : List ExerciseRow,
      updateFirstExercise x eid uid l = none ↔
        ∀ e ∈ l, ¬(e.exercise_id = eid ∧ e.user_id = uid) := by
  intro l
  induction l with
  | nil => simp [updateFirstExercise]
  | cons e rest ih =>
      simp only [updateFirstExercise]
      by_cases hc : (e.exercise_id == eid && e.user_id == uid) = true
      · rw [if_pos hc]
        simp only [Bool.and_eq_true, beq_iff_eq] at hc
        simp [hc.1, hc.2]
      · rw [if_neg hc]
        simp only [Bool.and_eq_true, beq_iff_eq] at hc
        rw [Option.map_eq_none', ih]
        simp [List.forall_mem_cons, hc]
        exact fun _ h1 h2 => hc ⟨h1, h2⟩

theorem updateFirstExercise_eq_some (x : ExerciseCreate) (eid uid : Nat) :
    ∀ (l rows : List ExerciseRow),
      updateFirstExercise x eid uid l = some rows →
        ∃ pre e post, l = pre ++ e :: post ∧
          (∀ y ∈ pre, ¬(y.exercise_id = eid ∧ y.user_id = uid)) ∧
          e.exercise_id = eid ∧ e.user_id = uid ∧
          rows = pre ++ applyUpdate x e :: post := by
  intro l
  induction l with
  | nil => intro rows h; simp [updateFirstExercise] at h
  | cons e rest ih =>
      intro rows h
      simp only [updateFirstExercise] at h
      by_cases hc : (e.exercise_id == eid && e.user_id == uid) = true
      · rw [if_pos hc] at h
        obtain ⟨h1, h2⟩ : e.exercise_id = eid ∧ e.user_id = uid := by
          simpa [Bool.and_eq_true, beq_iff_eq] using hc
        obtain rfl : applyUpdate x e :: rest = rows := by simpa using h
        exact ⟨[], e, rest, rfl, by simp, h1, h2, rfl⟩
      · rw [if_neg hc] at h
        simp only [Bool.and_eq_true, beq_iff_eq] at hc
        obtain ⟨rows0, hr0, hmap⟩ := Option.map_eq_some'.mp h
        obtain ⟨pre, e0, post, hl, hpre, h1, h2, hr⟩ := ih rows0 hr0
        refine ⟨e :: pre, e0, post, by simp [hl], ?_, h1, h2, by simp [← hmap, hr]⟩
        intro y hy
        rcases List.mem_cons.mp hy with hy | hy
        · subst hy; exact hc
        · exact hpre y hy

theorem deleteFirstExercise_eq_none (eid uid : Nat) :
    ∀ l : List ExerciseRow,
      deleteFirstExercise eid uid l = none ↔
        ∀ e ∈ l, ¬(e.exercise_id = eid ∧ e.user_id = uid) := by
  intro l
  induction l with
  | nil => simp [deleteFirstExercise]
  | cons e rest ih =>
      simp only [deleteFirstExercise]
      by_cases hc : (e.exercise_id == eid && e.user_id == uid) = true
      · rw [if_pos hc]
        simp only [Bool.and_eq_true, beq_iff_eq] at hc
        simp [hc.1, hc.2]
      · rw [if_neg hc]
        simp only [Bool.and_eq_true, beq_iff_eq] at hc
        rw [Option.map_eq_none', ih]
        simp [List.forall_mem_cons, hc]
        exact fun _ h1 h2 => hc ⟨h1, h2⟩

theorem deleteFirstExercise_eq_some (eid uid : Nat) :
    ∀ (l rows : List ExerciseRow),
      deleteFirstExercise eid uid l = some rows →
        ∃ pre e post, l = pre ++ e :: post ∧
          (∀ y ∈ pre, ¬(y.exercise_id = eid ∧ y.user_id = uid)) ∧
          e.exercise_id = eid ∧ e.user_id = uid ∧
          rows = pre ++ post := by
  intro l
  induction l with
  | nil => intro rows h; simp [deleteFirstExercise] at h
  | cons e rest ih =>
      intro rows h
      simp only [deleteFirstExercise] at h
      by_cases hc : (e.exercise_id == eid && e.user_id == uid) = true
      · rw [if_pos hc] at h
        obtain ⟨h1, h2⟩ : e.exercise_id = eid ∧ e.user_id = uid := by
          simpa [Bool.and_eq_true, beq_iff_eq] using hc
        obtain rfl : rest = rows := by simpa using h
        exact ⟨[], e, rest, rfl, by simp, h1, h2, rfl⟩
      · rw [if_neg hc] at h
        simp only [Bool.and_eq_true, beq_iff_eq] at hc
        obtain ⟨rows0, hr0, hmap⟩ := Option.map_eq_some'.mp h
        obtain ⟨pre, e0, post, hl, hpre, h1, h2, hr⟩ := ih rows0 hr0
        refine ⟨e :: pre, e0, post, by simp [hl], ?_, h1, h2, by simp [← hmap, hr]⟩
        intro y hy
        rcases List.mem_cons.mp hy with hy | hy
        · subst hy; exact hc
        · exact hpre y hy

/-- C8: exercise update and delete answer 404 exactly when the user owns no
exercise with the id, leave the database unchanged on 404, and on success
operate on a row whose user_id is the requesting user, so no user can touch
the exercise of another user. -/
theorem exercise_update_delete_404 (db : DB) (eid uid : Nat) (x : ExerciseCreate) :
    ((update_exercise db eid x uid).1 = 404 ↔
      ¬ ∃ e ∈ db.exercises, e.exercise_id = eid ∧ e.user_id = uid) ∧
    ((update_exercise db eid x uid).1 = 404 → (update_exercise db eid x uid).2 = db) ∧
    ((delete_exercise db eid uid).1 = 404 ↔
      ¬ ∃ e ∈ db.exercises, e.exercise_id = eid ∧ e.user_id = uid) ∧
    ((delete_exercise db eid uid).1 = 404 → (delete_exercise db eid uid).2 = db) ∧
    ((update_exercise db eid x uid).1 ≠ 404 →
      ∃ pre e post, db.exercises = pre ++ e :: post ∧
        e.exercise_id = eid ∧ e.user_id = uid ∧
        (update_exercise db eid x uid).2.exercises = pre ++ applyUpdate x e :: post ∧
        (applyUpdate x e).user_id = uid) ∧
    ((delete_exercise db eid uid).1 ≠ 404 →
      ∃ pre e post, db.exercises = pre ++ e :: post ∧
        e.exercise_id = eid ∧ e.user_id = uid ∧
        (delete_exercise db eid uid).2.exercises = pre ++ post) := by
  refine ⟨?_, ?_, ?_, ?_, ?_, ?_⟩
  · cases hu : updateFirstExercise x eid uid db.exercises with
    | none =>
        unfold update_exercise; rw [hu]
        have hall := (updateFirstExercise_eq_none x eid uid db.exercises).mp hu
        exact ⟨fun _ => by rintro ⟨e, he, hm⟩; exact hall e he hm, fun _ => rfl⟩
    | some rows =>
        unfold update_exercise; rw [hu]
        obtain ⟨pre, e0, post, hl, hpre, h1, h2, hr⟩ :=
          updateFirstExercise_eq_some x eid uid db.exercises rows hu
        constructor
        · intro h; simp at h
        · intro hc; exact absurd ⟨e0, by rw [hl]; simp, h1, h2⟩ hc
  · cases hu : updateFirstExercise x eid uid db.exercises with
    | none => unfold update_exercise; rw [hu]; intro _; rfl
    | some rows => unfold update_exercise; rw [hu]; intro h; simp at h
  · cases hd : deleteFirstExercise eid uid db.exercises with
    | none =>
        unfold delete_exercise; rw [hd]
        have hall := (deleteFirstExercise_eq_none eid uid db.exercises).mp hd
        exact ⟨fun _ => by rintro ⟨e, he, hm⟩; exact hall e he hm, fun _ => rfl⟩
    | some rows =>
        unfold delete_exercise; rw [hd]
        obtain ⟨pre, e0, post, hl, hpre, h1, h2, hr⟩ :=
          deleteFirstExercise_eq_some eid uid db.exercises rows hd
        constructor
        · intro h; simp at h
        · intro hc; exact absurd ⟨e0, by rw [hl]; simp, h1, h2⟩ hc
  · cases hd : deleteFirstExercise eid uid db.exercises with
    | none => unfold delete_exercise; rw [hd]; intro _; rfl
    | some rows => unfold delete_exercise; rw [hd]; intro h; simp at h
  · cases hu : updateFirstExercise x eid uid db.exercises with
    | none => unfold update_exercise; rw [hu]; intro h; simp at h
    | some rows =>
        unfold update_exercise; rw [hu]; intro _
        obtain ⟨pre, e0, post, hl, hpre, h1, h2, hr⟩ :=
          updateFirstExercise_eq_some x eid uid db.exercises rows hu
        exact ⟨pre, e0, post, hl, h1, h2, hr, by
          rw [show (applyUpdate x e0).user_id = e0.user_id from rfl, h2]⟩
  · cases hd : deleteFirstExercise eid uid db.exercises with
    | none => unfold delete_exercise; rw [hd]; intro h; simp at h
    | some rows =>
        unfold delete_exercise; rw [hd]; intro _
        obtain ⟨pre, e0, post, hl, hpre, h1, h2, hr⟩ :=
          deleteFirstExercise_eq_some eid uid db.exercises rows hd
        exact ⟨pre, e0, post, hl, h1, h2, hr⟩

/-! ## C9 -/

/-- C9: a successful exercise update changes exactly the five request fields
of the first matching row, preserves its id, owner, times-performed and
in-routine flag, and leaves every other exercise row, every user, and every
other table unchanged. -/
theorem update_exercise_frame (db db2 : DB) (eid uid : Nat) (x : ExerciseCreate)
    (h : update_exercise db eid x uid = (200, db2)) :
    db2.users = db.users ∧
    db2.default_exercises = db.default_exercises ∧
    db2.routine_days = db.routine_days ∧
    db2.routine_muscles_per_day = db.routine_muscles_per_day ∧
    db2.next_user_id = db.next_user_id ∧
    db2.next_exercise_id = db.next_exercise_id ∧
    ∃ pre e post, db.exercises = pre ++ e :: post ∧
      (∀ y ∈ pre, ¬(y.exercise_id = eid ∧ y.user_id = uid)) ∧
      e.exercise_id = eid ∧ e.user_id = uid ∧
      db2.exercises = pre ++ applyUpdate x e :: post ∧
      (applyUpdate x e).exercise_id = e.exercise_id ∧
      (applyUpdate x e).user_id = e.user_id ∧
      (applyUpdate x e).exercise_times_performed = e.exercise_times_performed ∧
      (applyUpdate x e).exercise_is_in_routine = e.exercise_is_in_routine ∧
      (applyUpdate x e).exercise_name = x.exercise_name ∧
      (applyUpdate x e).exercise_muscle_group = x.exercise_muscle_group ∧
      (applyUpdate x e).exercise_user_current_weight = x.exercise_user_current_weight ∧
      (applyUpdate x e).exercise_link = x.exercise_link ∧
      (applyUpdate x e).comments = x.comments := by
  cases hu : updateFirstExercise x eid uid db.exercises with
  | none =>
      unfold update_exercise at h; rw [hu] at h
      exact absurd (congrArg Prod.fst h) (by simp)
  | some rows =>
      unfold update_exercise at h; rw [hu] at h
      have hdb2 : db2 = { db with exercises := rows } := by
        have h2 := congrArg Prod.snd h
        simpa using h2.symm
      subst hdb2
      obtain ⟨pre, e0, post, hl, hpre, h1, h2, hr⟩ :=
        updateFirstExercise_eq_some x eid uid db.exercises rows hu
      exact ⟨rfl, rfl, rfl, rfl, rfl, rfl, pre, e0, post, hl, hpre, h1, h2, hr,
        rfl, rfl, rfl, rfl, rfl, rfl, rfl, rfl, rfl⟩

/-- Closed check for the update frame theorem on a one-row database. -/
theorem update_exercise_frame_witness :
    update_exercise dbWithExercise 5 samplePayload 1 =
      (200, (update_exercise dbWithExercise 5 samplePayload 1).2) ∧
    ((update_exercise dbWithExercise 5 samplePayload 1).2.users = dbWithExercise.users ∧
     (update_exercise dbWithExercise 5 samplePayload 1).2.default_exercises =
       dbWithExercise.default_exercises ∧
     (update_exercise dbWithExercise 5 samplePayload 1).2.routine_days =
       dbWithExercise.routine_days ∧
     (update_exercise dbWithExercise 5 samplePayload 1).2.routine_muscles_per_day =
       dbWithExercise.routine_muscles_per_day ∧
     (update_exercise dbWithExercise 5 samplePayload 1).2.next_user_id =
       dbWithExercise.next_user_id ∧
     (update_exercise dbWithExercise 5 samplePayload 1).2.next_exercise_id =
       dbWithExercise.next_exercise_id ∧
     ∃ pre e post, dbWithExercise.exercises = pre ++ e :: post ∧
       (∀ y ∈ pre, ¬(y.exercise_id = 5 ∧ y.user_id = 1)) ∧
       e.exercise_id = 5 ∧ e.user_id = 1 ∧
       (update_exercise dbWithExercise 5 samplePayload 1).2.exercises =
         pre ++ applyUpdate samplePayload e :: post ∧
       (applyUpdate samplePayload e).exercise_id = e.exercise_id ∧
       (applyUpdate samplePayload e).user_id = e.user_id ∧
       (applyUpdate samplePayload e).exercise_times_performed =
         e.exercise_times_performed ∧
       (applyUpdate samplePayload e).exercise_is_in_routine =
         e.exercise_is_in_routine ∧
       (applyUpdate samplePayload e).exercise_name = samplePayload.exercise_name ∧
       (applyUpdate samplePayload e).exercise_muscle_group =
         samplePayload.exercise_muscle_group ∧
       (applyUpdate samplePayload e).exercise_user_current_weight =
         samplePayload.exercise_user_current_weight ∧
       (applyUpdate samplePayload e).exercise_link = samplePayload.exercise_link ∧
       (applyUpdate samplePayload e).comments = samplePayload.comments) :=
  ⟨rfl, update_exercise_frame dbWithExercise
    (update_exercise dbWithExercise 5 samplePayload 1).2 5 1 samplePayload rfl⟩

/-! ## Legacy selection: sorting facts -/

theorem count_le_trans (a b c : Nat × LegacyExercise) :
    count_le a b = true → count_le b c = true → count_le a c = true := by
  simp only [count_le, decide_eq_true_eq]
  omega

theorem count_le_total (a b : Nat × LegacyExercise) :
    (count_le a b || count_le b a) = true := by
  simp only [count_le, Bool.or_eq_true, decide_eq_true_eq]
  omega

theorem sorted_by_count (l : List (Nat × LegacyExercise)) :
    (l.mergeSort count_le).Pairwise (fun a b => a.2.count ≤ b.2.count) := by
  have h := List.sorted_mergeSort
    (fun a b c => count_le_trans a b c) (fun a b => count_le_total a b) l
  exact h.imp (fun hab => by simpa [count_le] using hab)

theorem filter_min_prefix (m : Nat) :
    ∀ l : List (Nat × LegacyExercise),
      l.Pairwise (fun a b => a.2.count ≤ b.2.count) →
      (∀ q ∈ l, m ≤ q.2.count) →
      l.filter (fun q => q.2.count == m) =
        l.take (l.filter (fun q => q.2.count == m)).length := by
  intro l
  induction l with
  | nil => intro _ _; rfl
  | cons a t ih =>
      intro hpw hm
      rw [List.pairwise_cons] at hpw
      by_cases ha : a.2.count = m
      · have hfa : (a.2.count == m) = true := by simpa using ha
        have ih1 := ih hpw.2 (fun q hq => hm q (List.mem_cons_of_mem a hq))
        have hfil : (a :: t).filter (fun q => q.2.count == m) =
            a :: t.filter (fun q => q.2.count == m) := by
          simp [List.filter_cons, hfa]
        rw [hfil, List.length_cons, List.take_succ_cons]
        exact congrArg (List.cons a) ih1
      · have hlt : m < a.2.count :=
          lt_of_le_of_ne (hm a (List.mem_cons_self a t)) (fun hcc => ha hcc.symm)
        have hfil : (a :: t).filter (fun q => q.2.count == m) = [] := by
          rw [List.filter_eq_nil_iff]
          intro q hq
          rcases List.mem_cons.mp hq with hq | hq
          · subst hq; simpa using ha
          · have := hpw.1 q hq; simp; omega
        rw [hfil]
        rfl

/-! ## Legacy selection: reduction lemmas for select_for_group -/

theorem select_for_group_eq_nil
    (sample : List (Nat × LegacyExercise) → List (Nat × LegacyExercise))
    {exs : List LegacyExercise}
    (h : exs.enum.mergeSort count_le = []) :
    select_for_group sample exs = none := by
  unfold select_for_group
  rw [h]

theorem select_for_group_eq_cons
    (sample : List (Nat × LegacyExercise) → List (Nat × LegacyExercise))
    {exs : List LegacyExercise} {e0 : Nat × LegacyExercise}
    {tail : List (Nat × LegacyExercise)}
    (h : exs.enum.mergeSort count_le = e0 :: tail) :
    select_for_group sample exs =
      (if 3 ≤ ((e0 :: tail).filter (fun q => q.2.count == e0.2.count)).length then
        some (sample ((e0 :: tail).filter (fun q => q.2.count == e0.2.count)))
      else
        some ((e0 :: tail).filter (fun q => q.2.count == e0.2.count) ++
          ((e0 :: tail).drop
              ((e0 :: tail).filter (fun q => q.2.count == e0.2.count)).length).take
            (3 - ((e0 :: tail).filter (fun q => q.2.count == e0.2.count)).length))) := by
  unfold select_for_group
  rw [h]

theorem select_for_group_none
    (sample : List (Nat × LegacyExercise) → List (Nat × LegacyExercise))
    (exs : List LegacyExercise) :
    select_for_group sample exs = none ↔ exs = [] := by
  have hlen : (exs.enum.mergeSort count_le).length = exs.length := by
    rw [(List.mergeSort_perm exs.enum count_le).length_eq, List.enum_length]
  cases hs : exs.enum.mergeSort count_le with
  | nil =>
      rw [hs] at hlen
      simp only [List.length_nil] at hlen
      have hexs : exs = [] := List.length_eq_zero.mp hlen.symm
      rw [select_for_group_eq_nil sample hs, hexs]
      simp
  | cons e0 tail =>
      rw [hs] at hlen
      rw [select_for_group_eq_cons sample hs]
      constructor
      · intro h
        by_cases hc :
            3 ≤ ((e0 :: tail).filter (fun q => q.2.count == e0.2.count)).length
        · rw [if_pos hc] at h; exact absurd h (by simp)
        · rw [if_neg hc] at h; exact absurd h (by simp)
      · intro h; subst h; simp at hlen

/-- The selection of one muscle group: the result has min 3 (bucket size)
entries, each a reference into the bucket, and every selected exercise has a
count at most the count of every non-selected exercise of the bucket. -/
theorem select_for_group_spec
    {sample : List (Nat × LegacyExercise) → List (Nat × LegacyExercise)}
    (hs : ValidSample sample) (exs : List LegacyExercise)
    (sel : List (Nat × LegacyExercise))
    (h : select_for_group sample exs = some sel) :
    sel.length = min 3 exs.length ∧
    (∀ p ∈ sel, p ∈ exs.enum) ∧
    (∀ p ∈ sel, ∀ q ∈ exs.enum, q ∉ sel → p.2.count ≤ q.2.count) := by
  have hperm := List.mergeSort_perm exs.enum count_le
  have hpw := sorted_by_count exs.enum
  have hlen : (exs.enum.mergeSort count_le).length = exs.length := by
    rw [hperm.length_eq, List.enum_length]
  cases hsort : exs.enum.mergeSort count_le with
  | nil => rw [select_for_group_eq_nil sample hsort] at h; exact absurd h (by simp)
  | cons e0 tail =>
      rw [select_for_group_eq_cons sample hsort] at h
      rw [hsort] at hpw hperm hlen
      have hmin : ∀ q ∈ e0 :: tail, e0.2.count ≤ q.2.count := by
        intro q hq
        rcases List.mem_cons.mp hq with hq | hq
        · subst hq; exact le_refl _
        · exact (List.pairwise_cons.mp hpw).1 q hq
      have hpref := filter_min_prefix e0.2.count (e0 :: tail) hpw hmin
      set lowest := (e0 :: tail).filter (fun q => q.2.count == e0.2.count) with hlowdef
      by_cases hc : 3 ≤ lowest.length
      · rw [if_pos hc] at h
        obtain rfl : sample lowest = sel := by simpa using h
        obtain ⟨hslen, hsmem⟩ := hs lowest hc
        have hsub : lowest.length ≤ (e0 :: tail).length :=
          (List.filter_sublist (e0 :: tail)).length_le
        refine ⟨?_, ?_, ?_⟩
        · rw [hslen]
          have h3 : 3 ≤ exs.length := le_trans hc (hlen ▸ hsub)
          omega
        · intro p hp
          exact hperm.subset ((List.filter_sublist _).subset (hsmem p hp))
        · intro p hp q hq _
          have hpl : p ∈ lowest := hsmem p hp
          have hpc : p.2.count = e0.2.count := by
            have := (List.mem_filter.mp hpl).2
            simpa using this
          have hq2 : q ∈ e0 :: tail := hperm.symm.subset hq
          rw [hpc]
          exact hmin q hq2
      · rw [if_neg hc] at h
        push_neg at hc
        obtain rfl :
            lowest ++ ((e0 :: tail).drop lowest.length).take (3 - lowest.length) = sel := by
          simpa using h
        have hsel_take :
            lowest ++ ((e0 :: tail).drop lowest.length).take (3 - lowest.length) =
              (e0 :: tail).take 3 := by
          have h3 : lowest.length + (3 - lowest.length) = 3 := by omega
          calc lowest ++ ((e0 :: tail).drop lowest.length).take (3 - lowest.length)
              = (e0 :: tail).take lowest.length ++
                  ((e0 :: tail).drop lowest.length).take (3 - lowest.length) := by
                rw [← hpref]
            _ = (e0 :: tail).take (lowest.length + (3 - lowest.length)) := by
                rw [← List.take_add]
            _ = (e0 :: tail).take 3 := by rw [h3]
        rw [hsel_take]
        refine ⟨?_, ?_, ?_⟩
        · rw [List.length_take, hlen]
        · intro p hp
          exact hperm.subset ((List.take_sublist 3 (e0 :: tail)).subset hp)
        · intro p hp q hq hqn
          have hq2 : q ∈ e0 :: tail := hperm.symm.subset hq
          have hq3 : q ∈ (e0 :: tail).take 3 ++ (e0 :: tail).drop 3 := by
            rw [List.take_append_drop]; exact hq2
          rcases List.mem_append.mp hq3 with hq4 | hq4
          · exact absurd hq4 hqn
          · have hpw2 : ((e0 :: tail).take 3 ++ (e0 :: tail).drop 3).Pairwise
                (fun a b => a.2.count ≤ b.2.count) := by
              rw [List.take_append_drop]; exact hpw
            exact (List.pairwise_append.mp hpw2).2.2 p hp q hq4

/-! ## C1 -/

theorem suggest_eq
    (sample : List (Nat × LegacyExercise) → List (Nat × LegacyExercise))
    (st : LegacyState) (u : String) (day : List String) (rest : List (List String))
    (hunit : st.unit_of_measure_selected = some u)
    (hsched : st.user_schedule = day :: rest) :
    suggest_workout_of_the_day sample st =
      { st with today_selected_exercises :=
          day.filterMap (fun group =>
            match dict_find group st.exercises_dictionary with
            | none => none
            | some exs => (select_for_group sample exs).map (fun sel => (group, sel))) } := by
  unfold suggest_workout_of_the_day
  rw [hunit, hsched]
  simp

theorem filterMap_select_fst
    (sample : List (Nat × LegacyExercise) → List (Nat × LegacyExercise))
    (dict : List (String × List LegacyExercise)) :
    ∀ day : List String,
      (day.filterMap (fun group =>
        match dict_find group dict with
        | none => none
        | some exs => (select_for_group sample exs).map (fun sel => (group, sel)))).map
          Prod.fst =
      day.filter (fun group => !((dict_find group dict).getD []).isEmpty) := by
  intro day
  induction day with
  | nil => rfl
  | cons g t ih =>
      simp only [List.filterMap_cons, List.filter_cons]
      cases hd : dict_find g dict with
      | none => simpa [hd] using ih
      | some exs =>
          cases exs with
          | nil =>
              have hnone : select_for_group sample [] = none :=
                (select_for_group_none sample []).mpr rfl
              simpa [hd, hnone] using ih
          | cons a as =>
              cases hsel : select_for_group sample (a :: as) with
              | none =>
                  have := (select_for_group_none sample (a :: as)).mp hsel
                  simp at this
              | some sel => simpa [hd, hsel] using ih

/-- C1: for a user with a configured unit of measure and a non-empty
schedule, next-workout generation ignores (clears) any prior selection,
resolves exactly the muscle groups of the front day of the schedule (those
present with a non-empty bucket), and for each resolved group selects up to
3 referenced exercises of that bucket such that every selected exercise has
a times-performed count at most that of every non-selected one. -/
theorem suggest_workout_of_the_day_spec
    (sample : List (Nat × LegacyExercise) → List (Nat × LegacyExercise))
    (st : LegacyState) (u : String) (day : List String) (rest : List (List String))
    (hs : ValidSample sample)
    (hunit : st.unit_of_measure_selected = some u)
    (hsched : st.user_schedule = day :: rest) :
    (∀ s0, suggest_workout_of_the_day sample
        { st with today_selected_exercises := s0 } =
      suggest_workout_of_the_day sample st) ∧
    ((suggest_workout_of_the_day sample st).today_selected_exercises.map Prod.fst =
      day.filter (fun group =>
        !((dict_find group st.exercises_dictionary).getD []).isEmpty)) ∧
    (∀ group sel,
      (group, sel) ∈ (suggest_workout_of_the_day sample st).today_selected_exercises →
      ∃ exs, dict_find group st.exercises_dictionary = some exs ∧
        sel.length = min 3 exs.length ∧
        (∀ p ∈ sel, p ∈ exs.enum ∧ p.2 ∈ exs) ∧
        (∀ p ∈ sel, ∀ q ∈ exs.enum, q ∉ sel → p.2.count ≤ q.2.count)) := by
  refine ⟨?_, ?_, ?_⟩
  · intro s0
    rw [suggest_eq sample { st with today_selected_exercises := s0 } u day rest hunit hsched,
        suggest_eq sample st u day rest hunit hsched]
  · rw [suggest_eq sample st u day rest hunit hsched]
    exact filterMap_select_fst sample st.exercises_dictionary day
  · intro group sel hmem
    rw [suggest_eq sample st u day rest hunit hsched] at hmem
    obtain ⟨g0, hg0, hf⟩ := List.mem_filterMap.mp hmem
    cases hd : dict_find g0 st.exercises_dictionary with
    | none => rw [hd] at hf; simp at hf
    | some exs =>
        rw [hd] at hf
        simp only [Option.map_eq_some'] at hf
        obtain ⟨sel0, hsel0, heq⟩ := hf
        rw [Prod.mk.injEq] at heq
        obtain ⟨rfl, rfl⟩ := heq
        obtain ⟨hl, hm, hord⟩ := select_for_group_spec hs exs sel0 hsel0
        refine ⟨exs, hd, hl, ?_, hord⟩
        intro p hp
        refine ⟨hm p hp, ?_⟩
        rw [← List.enum_map_snd exs]
        exact List.mem_map_of_mem Prod.snd (hm p hp)

/-- Closed check for the next-workout generation theorem on a concrete
state. -/
theorem suggest_workout_of_the_day_spec_witness :
    ValidSample takeSample ∧
    legacySt.unit_of_measure_selected = some "pounds" ∧
    legacySt.user_schedule = ["chest"] :: [["back"]] ∧
    ((∀ s0, suggest_workout_of_the_day takeSample
        { legacySt with today_selected_exercises := s0 } =
      suggest_workout_of_the_day takeSample legacySt) ∧
    ((suggest_workout_of_the_day takeSample legacySt).today_selected_exercises.map
        Prod.fst =
      (["chest"]).filter (fun group =>
        !((dict_find group legacySt.exercises_dictionary).getD []).isEmpty)) ∧
    (∀ group sel,
      (group, sel) ∈
        (suggest_workout_of_the_day takeSample legacySt).today_selected_exercises →
      ∃ exs, dict_find group legacySt.exercises_dictionary = some exs ∧
        sel.length = min 3 exs.length ∧
        (∀ p ∈ sel, p ∈ exs.enum ∧ p.2 ∈ exs) ∧
        (∀ p ∈ sel, ∀ q ∈ exs.enum, q ∉ sel → p.2.count ≤ q.2.count))) := by
  have hvs : ValidSample takeSample := by
    intro xs h
    constructor
    · simp only [takeSample, List.length_take]
      omega
    · intro p hp
      exact (List.take_sublist 3 xs).subset hp
  exact ⟨hvs, rfl, rfl,
    suggest_workout_of_the_day_spec takeSample legacySt "pounds" ["chest"] [["back"]]
      hvs rfl rfl⟩

/-! ## C2: increment machinery -/

theorem bumpAt_length : ∀ (l : List LegacyExercise) (i : Nat),
    (bumpAt l i).length = l.length := by
  intro l
  induction l with
  | nil => intro i; rfl
  | cons e t ih =>
      intro i
      cases i with
      | zero => rfl
      | succ j => simp [bumpAt, ih]

theorem bumpAt_getD (d : LegacyExercise) :
    ∀ (l : List LegacyExercise) (i j : Nat),
      (bumpAt l i).getD j d =
        if i = j ∧ j < l.length then increment_count (l.getD j d) else l.getD j d := by
  intro l
  induction l with
  | nil => intro i j; simp [bumpAt]
  | cons e t ih =>
      intro i j
      cases i with
      | zero =>
          cases j with
          | zero => simp [bumpAt]
          | succ k => simp [bumpAt]
      | succ m =>
          cases j with
          | zero => simp [bumpAt]
          | succ k =>
              simp only [bumpAt, List.getD_cons_succ, List.length_cons]
              rw [ih]
              have hiff : (m = k ∧ k < t.length) ↔
                  (m + 1 = k + 1 ∧ k + 1 < t.length + 1) := by omega
              by_cases hc : m = k ∧ k < t.length
              · rw [if_pos hc, if_pos (hiff.mp hc)]
              · rw [if_neg hc, if_neg (fun hcc => hc (hiff.mpr hcc))]

theorem increment_selected_length :
    ∀ (sel : List (Nat × LegacyExercise)) (exs : List LegacyExercise),
      (increment_selected exs sel).length = exs.length := by
  intro sel
  induction sel with
  | nil => intro exs; rfl
  | cons p rest ih =>
      intro exs
      have hstep : increment_selected exs (p :: rest) =
          increment_selected (bumpAt exs p.1) rest := rfl
      rw [hstep, ih, bumpAt_length]

theorem increment_selected_getD (d : LegacyExercise) :
    ∀ (sel : List (Nat × LegacyExercise)) (exs : List LegacyExercise),
      (sel.map Prod.fst).Nodup →
      ∀ j, j < exs.length →
        (increment_selected exs sel).getD j d =
          if j ∈ sel.map Prod.fst then increment_count (exs.getD j d)
          else exs.getD j d := by
  intro sel
  induction sel with
  | nil => intro exs _ j hj; simp [increment_selected]
  | cons p rest ih =>
      intro exs hnd j hj
      simp only [List.map_cons, List.nodup_cons] at hnd
      have hstep : increment_selected exs (p :: rest) =
          increment_selected (bumpAt exs p.1) rest := rfl
      rw [hstep]
      have hlen : (bumpAt exs p.1).length = exs.length := bumpAt_length exs p.1
      rw [ih (bumpAt exs p.1) hnd.2 j (by rw [hlen]; exact hj)]
      rw [bumpAt_getD d exs p.1 j]
      simp only [List.map_cons]
      by_cases hj1 : j ∈ rest.map Prod.fst
      · have hne : ¬(p.1 = j ∧ j < exs.length) := fun hcc =>
          hnd.1 (by rw [hcc.1]; exact hj1)
        rw [if_pos hj1, if_neg hne, if_pos (List.mem_cons_of_mem _ hj1)]
      · by_cases hj2 : p.1 = j
        · rw [if_neg hj1, if_pos ⟨hj2, hj⟩,
            if_pos (List.mem_cons.mpr (Or.inl hj2.symm))]
        · have hnotin : j ∉ p.1 :: rest.map Prod.fst := by
            intro hcc
            rcases List.mem_cons.mp hcc with hcc | hcc
            · exact hj2 hcc.symm
            · exact hj1 hcc
          rw [if_neg hj1, if_neg (fun hcc => hj2 hcc.1), if_neg hnotin]

/-! ## C2: dictionary lookup machinery -/

theorem dict_find_mem {β : Type} (g : String) :
    ∀ (l : List (String × β)) (v : β), dict_find g l = some v → (g, v) ∈ l := by
  intro l
  induction l with
  | nil => intro v h; simp [dict_find] at h
  | cons entry t ih =>
      intro v h
      obtain ⟨k, w⟩ := entry
      simp only [dict_find] at h
      by_cases hk : k = g
      · rw [if_pos hk] at h
        obtain rfl : w = v := by simpa using h
        subst hk
        exact List.mem_cons_self _ _
      · rw [if_neg hk] at h
        exact List.mem_cons_of_mem _ (ih v h)

theorem dict_find_update {β : Type} (g : String) (f : β → β) :
    ∀ (dict : List (String × β)) (g2 : String),
      dict_find g2 (dict.map (fun entry =>
        if entry.1 = g then (entry.1, f entry.2) else entry)) =
      if g2 = g then (dict_find g2 dict).map f else dict_find g2 dict := by
  intro dict
  induction dict with
  | nil => intro g2; by_cases h : g2 = g <;> simp [dict_find, h]
  | cons entry t ih =>
      intro g2
      obtain ⟨k, v⟩ := entry
      simp only [List.map_cons]
      by_cases hk : k = g
      · rw [if_pos hk]
        subst hk
        by_cases h2 : k = g2
        · subst h2
          simp [dict_find, ih]
        · have hg2 : ¬g2 = k := fun hcc => h2 hcc.symm
          simp [dict_find, h2, hg2, ih g2]
      · rw [if_neg hk]
        by_cases h2 : k = g2
        · subst h2
          have hg : ¬k = g := hk
          simp [dict_find, hg, ih]
        · simp [dict_find, h2, ih g2]

theorem increment_group_find_none
    (selected : List (String × List (Nat × LegacyExercise)))
    (dict : List (String × List LegacyExercise)) (g : String)
    (h : dict_find g selected = none) :
    increment_group selected dict g = dict := by
  unfold increment_group
  rw [h]

theorem increment_group_find_some
    (selected : List (String × List (Nat × LegacyExercise)))
    (dict : List (String × List LegacyExercise)) (g g2 : String)
    (sel : List (Nat × LegacyExercise))
    (h : dict_find g selected = some sel) :
    dict_find g2 (increment_group selected dict g) =
      if g2 = g then (dict_find g2 dict).map (fun exs => increment_selected exs sel)
      else dict_find g2 dict := by
  unfold increment_group
  rw [h]
  show dict_find g2 (dict.map (fun entry =>
      if entry.1 = g then (entry.1, increment_selected entry.2 sel) else entry)) = _
  exact dict_find_update g (fun exs => increment_selected exs sel) dict g2

theorem foldl_increment_not_mem
    (selected : List (String × List (Nat × LegacyExercise))) :
    ∀ (day : List String) (dict : List (String × List LegacyExercise)) (g : String),
      g ∉ day →
      dict_find g (day.foldl (increment_group selected) dict) = dict_find g dict := by
  intro day
  induction day with
  | nil => intro dict g _; rfl
  | cons d t ih =>
      intro dict g hg
      simp only [List.foldl_cons]
      have hgd : ¬g = d := fun hc => hg (by rw [hc]; exact List.mem_cons_self d t)
      rw [ih _ g (fun hc => hg (List.mem_cons_of_mem d hc))]
      cases hsel : dict_find d selected with
      | none => rw [increment_group_find_none selected dict d hsel]
      | some sel => rw [increment_group_find_some selected dict d g sel hsel, if_neg hgd]

theorem foldl_increment_mem
    (selected : List (String × List (Nat × LegacyExercise))) :
    ∀ (day : List String) (dict : List (String × List LegacyExercise)) (g : String),
      day.Nodup → g ∈ day →
      dict_find g (day.foldl (increment_group selected) dict) =
        match dict_find g selected with
        | none => dict_find g dict
        | some sel => (dict_find g dict).map (fun exs => increment_selected exs sel) := by
  intro day
  induction day with
  | nil => intro dict g _ hg; simp at hg
  | cons d t ih =>
      intro dict g hnd hg
      simp only [List.foldl_cons]
      rw [List.nodup_cons] at hnd
      by_cases hgd : g = d
      · subst hgd
        rw [foldl_increment_not_mem selected t _ g hnd.1]
        cases hsel : dict_find g selected with
        | none => rw [increment_group_find_none selected dict g hsel]
        | some sel => rw [increment_group_find_some selected dict g g sel hsel, if_pos rfl]
      · have hgt : g ∈ t := by
          rcases List.mem_cons.mp hg with h | h
          · exact absurd h hgd
          · exact h
        rw [ih _ g hnd.2 hgt]
        have hstep : dict_find g (increment_group selected dict d) = dict_find g dict := by
          cases hsel : dict_find d selected with
          | none => rw [increment_group_find_none selected dict d hsel]
          | some sel =>
              rw [increment_group_find_some selected dict d g sel hsel, if_neg hgd]
        rw [hstep]

/-! ## C2: rotation machinery -/

theorem drop_take_rotate {α : Type} (l : List α) :
    l.drop 1 ++ l.take 1 = l.rotate 1 := by
  cases l with
  | nil => rfl
  | cons a t =>
      rw [show (1 : Nat) = 0 + 1 from rfl, List.rotate_cons_succ, List.rotate_zero]
      simp

theorem mark_schedule (st : LegacyState) :
    (mark_workout_as_complete st).user_schedule = st.user_schedule.rotate 1 :=
  drop_take_rotate st.user_schedule

theorem mark_iterate_schedule (st : LegacyState) :
    ∀ n, (mark_workout_as_complete^[n] st).user_schedule =
      st.user_schedule.rotate n := by
  intro n
  induction n with
  | zero => simp
  | succ m ihm =>
      rw [Function.iterate_succ_apply', mark_schedule, ihm, List.rotate_rotate]

/-- C2: completing a workout increments by exactly 1 the times-performed
count of every exercise selected for a muscle group of the front day of the
schedule, leaves every other count and field unchanged, and advances the day
pointer cyclically: the schedule rotates left by one, iterating rotates
modulo the routine length, and after one full routine the front day is the
first day again. -/
theorem mark_workout_as_complete_spec (st : LegacyState) (day : List String)
    (rest : List (List String))
    (hsched : st.user_schedule = day :: rest)
    (hday : day.Nodup)
    (hsel : ∀ entry ∈ st.today_selected_exercises, (entry.2.map Prod.fst).Nodup) :
    (∀ g exs, dict_find g st.exercises_dictionary = some exs →
      ∃ exs2,
        dict_find g (mark_workout_as_complete st).exercises_dictionary = some exs2 ∧
        exs2.length = exs.length ∧
        ∀ j, j < exs.length → ∀ d,
          exs2.getD j d =
            if g ∈ day ∧ ∃ sel, dict_find g st.today_selected_exercises = some sel ∧
                j ∈ sel.map Prod.fst
            then increment_count (exs.getD j d) else exs.getD j d) ∧
    ((mark_workout_as_complete st).user_schedule = st.user_schedule.rotate 1) ∧
    (∀ n, (mark_workout_as_complete^[n] st).user_schedule =
        st.user_schedule.rotate n ∧
      (mark_workout_as_complete^[n] st).user_schedule =
        st.user_schedule.rotate (n % st.user_schedule.length)) ∧
    ((mark_workout_as_complete^[st.user_schedule.length] st).user_schedule =
      st.user_schedule) := by
  refine ⟨?_, mark_schedule st, ?_, ?_⟩
  · intro g exs hg
    have hdict : (mark_workout_as_complete st).exercises_dictionary =
        day.foldl (increment_group st.today_selected_exercises)
          st.exercises_dictionary := by
      unfold mark_workout_as_complete
      rw [hsched]
      rfl
    rw [hdict]
    by_cases hgday : g ∈ day
    · rw [foldl_increment_mem st.today_selected_exercises day
        st.exercises_dictionary g hday hgday]
      cases hselg : dict_find g st.today_selected_exercises with
      | none =>
          refine ⟨exs, hg, rfl, ?_⟩
          intro j hj d
          have hneg : ¬(g ∈ day ∧
              ∃ sel, (none : Option (List (Nat × LegacyExercise))) = some sel ∧
                j ∈ sel.map Prod.fst) := by
            rintro ⟨-, sel, hcc, -⟩
            exact Option.noConfusion hcc
          rw [if_neg hneg]
      | some sel =>
          rw [hg]
          have hnodup : (sel.map Prod.fst).Nodup :=
            hsel (g, sel) (dict_find_mem g st.today_selected_exercises sel hselg)
          refine ⟨increment_selected exs sel, rfl,
            increment_selected_length sel exs, ?_⟩
          intro j hj d
          rw [increment_selected_getD d sel exs hnodup j hj]
          by_cases hjm : j ∈ sel.map Prod.fst
          · rw [if_pos hjm, if_pos ⟨hgday, sel, rfl, hjm⟩]
          · have hneg : ¬(g ∈ day ∧
                ∃ sel2, some sel = some sel2 ∧ j ∈ sel2.map Prod.fst) := by
              rintro ⟨-, sel2, hs2, hj2⟩
              obtain rfl : sel = sel2 := by simpa using hs2
              exact hjm hj2
            rw [if_neg hjm, if_neg hneg]
    · rw [foldl_increment_not_mem st.today_selected_exercises day
        st.exercises_dictionary g hgday]
      refine ⟨exs, hg, rfl, ?_⟩
      intro j hj d
      rw [if_neg (fun hcc => hgday hcc.1)]
  · intro n
    refine ⟨mark_iterate_schedule st n, ?_⟩
    rw [mark_iterate_schedule st n, List.rotate_mod]
  · rw [mark_iterate_schedule st st.user_schedule.length, List.rotate_length]

/-- Closed check for the workout-completion theorem on a concrete state. -/
theorem mark_workout_as_complete_spec_witness :
    legacySt.user_schedule = ["chest"] :: [["back"]] ∧
    (["chest"] : List String).Nodup ∧
    (∀ entry ∈ legacySt.today_selected_exercises, (entry.2.map Prod.fst).Nodup) ∧
    ((∀ g exs, dict_find g legacySt.exercises_dictionary = some exs →
      ∃ exs2,
        dict_find g (mark_workout_as_complete legacySt).exercises_dictionary =
          some exs2 ∧
        exs2.length = exs.length ∧
        ∀ j, j < exs.length → ∀ d,
          exs2.getD j d =
            if g ∈ (["chest"] : List String) ∧
                ∃ sel, dict_find g legacySt.today_selected_exercises = some sel ∧
                  j ∈ sel.map Prod.fst
            then increment_count (exs.getD j d) else exs.getD j d) ∧
    ((mark_workout_as_complete legacySt).user_schedule =
      legacySt.user_schedule.rotate 1) ∧
    (∀ n, (mark_workout_as_complete^[n] legacySt).user_schedule =
        legacySt.user_schedule.rotate n ∧
      (mark_workout_as_complete^[n] legacySt).user_schedule =
        legacySt.user_schedule.rotate (n % legacySt.user_schedule.length)) ∧
    ((mark_workout_as_complete^[legacySt.user_schedule.length] legacySt).user_schedule =
      legacySt.user_schedule)) :=
  ⟨rfl, by decide, by decide,
    mark_workout_as_complete_spec legacySt ["chest"] [["back"]] rfl
      (by decide) (by decide)⟩
